import Mathlib

/-!
Shallow embedding of the online serving-vector engine of
`hsfs/core/training_dataset_engine.py` (class TrainingDatasetEngine),
together with proofs about the claims of the specification.

Modelling conventions:
  * feature values are integers (`Int`); an entry value is either a scalar
    or a sequence, mirroring the duck-typed scalar-vs-list dispatch of the
    Python code (`hasattr(x, "__iter__") and isinstance(x, list)`);
  * Python dictionaries are association lists in insertion order
    (Python 3.7+ dicts iterate in insertion order, which is what the code
    relies on for `prepared_statements` and `batch_dicts`);
  * Python sets are lists compared with set-equality (`keySetEq`);
  * each distinct `raise`/crash site of the source is a distinct
    constructor of `ServingError` (the two ValueError mode mismatches, the
    batch-size ValueError, the serving-key ValueError, the no-data raise,
    the IndexError from `list(entry.values())[0]` on an empty dict and the
    TypeError from `len()` of a scalar);
  * the online store is a parameter `db : CompiledStmt -> Entry -> List Row`
    standing for `mysql_conn.execute(stmt, entry).fetchall()`;
  * the auto-initialisation branch of `get_serving_vector` (source lines
    164-173) performs network calls and is not modelled; every claim is
    about an initialised training dataset, and the embedding returns the
    distinguished error `uninitialised` when `prepared_statements` is
    `None`.
-/

/-- A value supplied for one primary key in a lookup request: either a
single scalar or a sequence (batch) of scalars. -/
inductive EntryVal where
  | scalar : Int → EntryVal
  | seq : List Int → EntryVal
deriving DecidableEq

/-- A result row from the online store: feature name to value, in column
order (`dict(row.items())`). -/
abbrev Row := List (String × Int)

/-- The lookup request: primary-key feature name to value, in dict
insertion order (`entry`). -/
abbrev Entry := List (String × EntryVal)

/-- One error constructor per distinct raise or crash site of the source. -/
inductive ServingError where
  | uninitialised
  | emptyEntry
  | modeMismatchBatchExpected
  | modeMismatchSingleExpected
  | batchSizeMismatch
  | keyMismatch
  | noDataFound
  | missingComplexFeature
  | lenOfScalar
deriving DecidableEq

/-- Result of `get_serving_vector`: one vector (single mode) or a list of
vectors (batch mode). -/
inductive ServingResult where
  | single : List Int → ServingResult
  | batch : List (List Int) → ServingResult
deriving DecidableEq

/-- A compiled prepared statement as stored in the statement cache: the
rewritten SQL text (result of `sql.text`) and whether its bind parameters
were marked expanding (done exactly in batch mode). -/
structure CompiledStmt where
  text : List Char
  expanding : Bool
deriving DecidableEq

/-- The metadata-service description of one prepared statement, as
returned by `get_serving_prepared_statement`: its index, its templated
SQL and its parameters as (name, index) pairs. -/
structure PreparedStmtMeta where
  prepared_statement_index : Nat
  query_online : List Char
  prepared_statement_parameters : List (String × Nat)

/-- The serving-relevant mutable state of a training dataset object.
`complex_schemas` models the output of `get_complex_feature_schemas`
(a map from complex-feature name to its binary decoder), with decoders
abstracted as functions on values. -/
structure TrainingDataset where
  prepared_statement_engine : Option Nat
  prepared_statements : Option (List (Nat × CompiledStmt))
  serving_keys : Option (List String)
  serving_batch_size : Option Nat
  transformation_functions : List (String × (Int → Int))
  complex_schemas : List (String × (Int → Int))

/-- First-key lookup in an association list, as a Python dict read. -/
def alookup {α : Type} : List (String × α) → String → Option α
  | [], _ => none
  | (k, v) :: rest, key => if k = key then some v else alookup rest key

/-- Set equality of two key collections, as Python compares
`entry.keys() == serving_keys` (a dict-keys view against a set). -/
def keySetEq (a b : List String) : Bool :=
  a.all (fun k => b.contains k) && b.all (fun k => a.contains k)

/-- True for sequence-shaped values; the Python code tests
`hasattr(x, "__iter__") and isinstance(x, list)`. -/
def EntryVal.isSeq : EntryVal → Bool
  | .scalar _ => false
  | .seq _ => true

/-- True for scalar-shaped values; the Python code tests
`not hasattr(x, "__iter__") and not isinstance(x, list)`. -/
def EntryVal.isScalar : EntryVal → Bool
  | .scalar _ => true
  | .seq _ => false

/-- Condition `serving_batch_size is not None and serving_batch_size > 1`
(and the identical test on the `batch_size` argument of init). -/
def isBatchSize : Option Nat → Bool
  | some n => decide (1 < n)
  | none => false

/-- Lengths of the entry values, as the comprehension
`[len(x) for x in entry.values()]`; `len` of a scalar raises a TypeError,
modelled as the error `lenOfScalar` at the first scalar value. -/
def seqLens : Entry → Except ServingError (List Nat)
  | [] => .ok []
  | (_, .scalar _) :: _ => .error .lenOfScalar
  | (_, .seq l) :: rest =>
    match seqLens rest with
    | .error e => .error e
    | .ok ls => .ok (l.length :: ls)

/-- In the source, `batch_sizes != training_dataset.serving_batch_size`
compares a Python list with an int (or None); such a comparison is always
True, so this helper is constantly true. It is kept as a separate
definition so that the divergence from the intended size check stays
visible in the embedding. -/
def listNeScalar (_ : List Nat) (_ : Option Nat) : Bool := true

/-- The mode checks of `get_serving_vector` (source lines 176-214):
returns the `batch` flag, or the error the corresponding branch raises.
Both branches read `list(entry.values())[0]`, which raises an IndexError
on an empty entry. -/
def checkMode (td : TrainingDataset) (entry : Entry) : Except ServingError Bool :=
  if isBatchSize td.serving_batch_size then
    match entry with
    | [] => .error .emptyEntry
    | (_, v) :: _ =>
      if v.isScalar then .error .modeMismatchBatchExpected
      else
        match seqLens entry with
        | .error e => .error e
        | .ok lens =>
          if lens.dedup.length ≠ 1 && listNeScalar lens.dedup td.serving_batch_size then
            .error .batchSizeMismatch
          else .ok true
  else
    match entry with
    | [] => .error .emptyEntry
    | (_, v) :: _ =>
      if v.isSeq then .error .modeMismatchSingleExpected
      else .ok false

/-- The serving-key check (source line 217):
`if not entry.keys() == training_dataset.serving_keys: raise`.
A dict-keys view compared with `None` is unequal, so an absent key set
also raises. -/
def checkKeys (td : TrainingDataset) (entry : Entry) : Except ServingError Unit :=
  match td.serving_keys with
  | none => .error .keyMismatch
  | some sk => if keySetEq (entry.map Prod.fst) sk then .ok () else .error .keyMismatch

/-- Embedding of `deserialize_complex_features`: for every feature with a
cached schema, replace its value in the row by the decoded value; a
feature missing from the row is a KeyError in the source, modelled as
`missingComplexFeature`. -/
def deserialize_complex_features :
    List (String × (Int → Int)) → Row → Except ServingError Row
  | [], row => .ok row
  | (name, dec) :: rest, row =>
    if row.any (fun p => p.1 = name) then
      deserialize_complex_features rest
        (row.map (fun p => if p.1 = name then (p.1, dec p.2) else p))
    else .error .missingComplexFeature

/-- Embedding of the static method `_apply_transformation`: for every
feature name carrying a transformation function, if the row contains the
feature, replace its value by the transformed value. -/
def apply_transformation : List (String × (Int → Int)) → Row → Row
  | [], row => row
  | (name, fn) :: rest, row =>
    apply_transformation rest
      (if row.any (fun p => p.1 = name) then
        row.map (fun p => if p.1 = name then (p.1, fn p.2) else p)
      else row)

/-- Update of `batch_dicts` at key `k` (source lines 249-252): append to
the already-present vector, or insert a new key at the end (Python dict
insertion order). -/
def updateBatchDict (bd : List (Nat × List Int)) (k : Nat) (vs : List Int) :
    List (Nat × List Int) :=
  if bd.any (fun q => q.1 = k) then
    bd.map (fun q => if q.1 = k then (q.1, q.2 ++ vs) else q)
  else bd ++ [(k, vs)]

/-- The inner row loop of `get_serving_vector` (source lines 232-253) for
one prepared statement: `bd` is `batch_dicts`, `k` is `order_in_batch`,
`lastDict` is the running value of `result_dict` (initially the empty
dict). Returns the final `batch_dicts` and final `result_dict`. -/
def processRows (schemas tfns : List (String × (Int → Int))) (batch : Bool) :
    List Row → List (Nat × List Int) → Nat → Row →
    Except ServingError (List (Nat × List Int) × Row)
  | [], bd, _, lastDict => .ok (bd, lastDict)
  | row :: rest, bd, k, _ =>
    match deserialize_complex_features schemas row with
    | .error e => .error e
    | .ok d =>
      if d.isEmpty then .error .noDataFound
      else
        let d2 := apply_transformation tfns d
        let bd2 := if batch then updateBatchDict bd k (d2.map Prod.snd) else bd
        processRows schemas tfns batch rest bd2 (k + 1) d2

/-- The outer statement loop of `get_serving_vector` (source lines
227-256): iterate over the cached statements in dict (insertion) order,
fetch the rows of each, run the row loop, and in single mode append
`list(result_dict.values())` to the serving vector. -/
def processStmts (db : CompiledStmt → Entry → List Row)
    (schemas tfns : List (String × (Int → Int))) (batch : Bool) (entry : Entry) :
    List (Nat × CompiledStmt) → List Int → List (Nat × List Int) →
    Except ServingError (List Int × List (Nat × List Int))
  | [], sv, bd => .ok (sv, bd)
  | (_, stmt) :: rest, sv, bd =>
    match processRows schemas tfns batch (db stmt entry) bd 0 [] with
    | .error e => .error e
    | .ok (bd2, lastDict) =>
      let sv2 := if batch then sv else sv ++ lastDict.map Prod.snd
      processStmts db schemas tfns batch entry rest sv2 bd2

/-- Embedding of `TrainingDatasetEngine.get_serving_vector` for an
initialised training dataset: mode checks, key check, statement loop,
and the final single-vs-batch return (source lines 161-262). -/
def get_serving_vector (db : CompiledStmt → Entry → List Row)
    (td : TrainingDataset) (entry : Entry) : Except ServingError ServingResult :=
  match td.prepared_statements with
  | none => .error .uninitialised
  | some ps =>
    match checkMode td entry with
    | .error e => .error e
    | .ok batch =>
      match checkKeys td entry with
      | .error e => .error e
      | .ok _ =>
        match processStmts db td.complex_schemas td.transformation_functions
            batch entry ps [] [] with
        | .error e => .error e
        | .ok (sv, bd) =>
          .ok (if batch then .batch (bd.map Prod.snd) else .single sv)

/-- Replacement of the first positional placeholder, as one step of
`re.sub(r"^(.*?)\?", r"\1:" + pk_name, query_online)`: the anchored lazy
pattern matches the prefix up to the first question mark and replaces
that question mark by a colon followed by the parameter name; a template
without a question mark is left unchanged. -/
def replaceFirstQ (name : String) : List Char → List Char
  | [] => []
  | c :: cs => if c = '?' then ':' :: (name.data ++ cs) else c :: replaceFirstQ name cs

/-- The placeholder-rewrite loop of `init_prepared_statement` (source
lines 305-311): fold the single-placeholder replacement over the ordered
parameter names. -/
def rewriteTemplate (names : List String) (q : List Char) : List Char :=
  names.foldl (fun acc n => replaceFirstQ n acc) q

/-- Stable insertion of a parameter into a list sorted by parameter
index, used to model Python `sorted(..., key=lambda psp: psp.index)`. -/
def insertByIndex (x : String × Nat) : List (String × Nat) → List (String × Nat)
  | [] => [x]
  | y :: ys => if x.2 ≤ y.2 then x :: y :: ys else y :: insertByIndex x ys

/-- Stable sort of prepared-statement parameters by their index. -/
def sortParams : List (String × Nat) → List (String × Nat)
  | [] => []
  | x :: xs => insertByIndex x (sortParams xs)

/-- Python set add: append the element unless already present. -/
def setAdd (s : List String) (x : String) : List String :=
  if s.contains x then s else s ++ [x]

/-- Python dict store `d[k] = v`: overwrite in place, or append. -/
def dictInsert {α : Type} (d : List (Nat × α)) (k : Nat) (v : α) : List (Nat × α) :=
  if d.any (fun q => q.1 = k) then
    d.map (fun q => if q.1 = k then (q.1, v) else q)
  else d ++ [(k, v)]

/-- Newline stripping `str(query).replace("\n", " ")`. -/
def stripNewlines (s : List Char) : List Char :=
  s.map (fun c => if c = Char.ofNat 10 then ' ' else c)

/-- The statement-building loop of `init_prepared_statement` (source
lines 283-321): for each template, sort its parameters by index, add the
names to the serving-key set, rewrite the template, and store the
compiled statement keyed by its index; in batch mode the bind parameters
are marked expanding. -/
def buildStmts (batch : Bool) :
    List PreparedStmtMeta → List (Nat × CompiledStmt) × List String →
    List (Nat × CompiledStmt) × List String
  | [], acc => acc
  | ps :: rest, (dict, keys) =>
    let q0 := stripNewlines ps.query_online
    let pkNames := (sortParams ps.prepared_statement_parameters).map Prod.fst
    let keys2 := pkNames.foldl setAdd keys
    let q1 := rewriteTemplate pkNames q0
    let stmt : CompiledStmt := { text := q1, expanding := batch }
    buildStmts batch rest (dictInsert dict ps.prepared_statement_index stmt, keys2)

/-- The unconditional reset at the top of `init_prepared_statement`
(source lines 266-270). -/
def resetServingState (td : TrainingDataset) : TrainingDataset :=
  { td with
    prepared_statement_engine := none,
    prepared_statements := none,
    serving_keys := none,
    serving_batch_size := none }

/-- Embedding of `TrainingDatasetEngine.init_prepared_statement` (source
lines 264-332). `mysqlEngine` stands for the engine created by
`util.create_mysql_engine`, `api` for the metadata-service call
`get_serving_prepared_statement` (whose result depends on the batch
flag), and `tfns` for the transformation functions resolved by the
transformation-function engine. -/
def init_prepared_statement (td : TrainingDataset) (batch_size : Option Nat)
    (mysqlEngine : Nat) (api : Bool → List PreparedStmtMeta)
    (tfns : List (String × (Int → Int))) : TrainingDataset :=
  let td1 := resetServingState td
  let batch := isBatchSize batch_size
  let td2 := if batch then { td1 with serving_batch_size := batch_size } else td1
  let built := buildStmts batch (api batch) ([], [])
  { td2 with
    transformation_functions := tfns,
    prepared_statement_engine := some mysqlEngine,
    prepared_statements := some built.1,
    serving_keys := some built.2 }

/-! ### Spec-side descriptions used to state the claims -/

/-- A template with N positional placeholders, described by its N+1
placeholder-free segments: the segments joined by question marks. -/
def templateOfSegs : List (List Char) → List Char
  | [] => []
  | [s] => s
  | s :: t :: rest => s ++ '?' :: templateOfSegs (t :: rest)

/-- The same segments joined by the named placeholders, in order: the
expected output of the rewrite. -/
def interleaveNamed : List (List Char) → List String → List Char
  | [s], [] => s
  | s :: segs, n :: ns => s ++ ':' :: n.data ++ interleaveNamed segs ns
  | _, _ => []

theorem rewriteTemplate_nil (q : List Char) : rewriteTemplate [] q = q := rfl

theorem rewriteTemplate_cons (n : String) (ns : List String) (q : List Char) :
    rewriteTemplate (n :: ns) q = rewriteTemplate ns (replaceFirstQ n q) := rfl

theorem replaceFirstQ_skip (name : String) (pre t : List Char) (h : '?' ∉ pre) :
    replaceFirstQ name (pre ++ t) = pre ++ replaceFirstQ name t := by
  induction pre with
  | nil => simp
  | cons c cs ih =>
    have hc : ¬ c = '?' := fun hc => h (by simp [hc])
    have hcs : '?' ∉ cs := fun hm => h (List.mem_cons_of_mem _ hm)
    simp [replaceFirstQ, hc, ih hcs]

theorem replaceFirstQ_hit (name : String) (pre t : List Char) (h : '?' ∉ pre) :
    replaceFirstQ name (pre ++ '?' :: t) = pre ++ ':' :: name.data ++ t := by
  induction pre with
  | nil => simp [replaceFirstQ]
  | cons c cs ih =>
    have hc : ¬ c = '?' := fun hc => h (by simp [hc])
    have hcs : '?' ∉ cs := fun hm => h (List.mem_cons_of_mem _ hm)
    simp [replaceFirstQ, hc, ih hcs]

theorem rewriteTemplate_skip (names : List String) (pre t : List Char) (h : '?' ∉ pre) :
    rewriteTemplate names (pre ++ t) = pre ++ rewriteTemplate names t := by
  induction names generalizing t with
  | nil => simp [rewriteTemplate_nil]
  | cons n ns ih =>
    rw [rewriteTemplate_cons, rewriteTemplate_cons, replaceFirstQ_skip n pre t h, ih]

theorem rewrite_eq_interleave (names : List String) (segs : List (List Char))
    (hlen : segs.length = names.length + 1)
    (hsegs : ∀ s ∈ segs, '?' ∉ s)
    (hnames : ∀ n ∈ names, '?' ∉ n.data) :
    rewriteTemplate names (templateOfSegs segs) = interleaveNamed segs names := by
  induction names generalizing segs with
  | nil =>
    match segs, hlen with
    | [s], _ => simp [templateOfSegs, interleaveNamed, rewriteTemplate_nil]
  | cons n ns ih =>
    match segs, hlen with
    | s :: t :: rest, hlen =>
      have hs : '?' ∉ s := hsegs s (by simp)
      have hpre : '?' ∉ s ++ ':' :: n.data := by
        intro hm
        rcases List.mem_append.1 hm with h1 | h1
        · exact hs h1
        · rcases List.mem_cons.1 h1 with h2 | h2
          · exact absurd h2 (by decide)
          · exact hnames n (by simp) h2
      calc rewriteTemplate (n :: ns) (templateOfSegs (s :: t :: rest))
          = rewriteTemplate ns ((s ++ ':' :: n.data) ++ templateOfSegs (t :: rest)) := by
            rw [rewriteTemplate_cons]
            show rewriteTemplate ns (replaceFirstQ n (s ++ '?' :: templateOfSegs (t :: rest))) = _
            rw [replaceFirstQ_hit n s _ hs]
        _ = (s ++ ':' :: n.data) ++ rewriteTemplate ns (templateOfSegs (t :: rest)) :=
            rewriteTemplate_skip ns _ _ hpre
        _ = (s ++ ':' :: n.data) ++ interleaveNamed (t :: rest) ns := by
            rw [ih (t :: rest) (by simpa using hlen)
              (fun x hx => hsegs x (List.mem_cons_of_mem _ hx))
              (fun x hx => hnames x (List.mem_cons_of_mem _ hx))]
        _ = interleaveNamed (s :: t :: rest) (n :: ns) := by
            simp [interleaveNamed]

theorem interleave_no_q (segs : List (List Char)) (names : List String)
    (hlen : segs.length = names.length + 1)
    (hsegs : ∀ s ∈ segs, '?' ∉ s)
    (hnames : ∀ n ∈ names, '?' ∉ n.data) :
    '?' ∉ interleaveNamed segs names := by
  induction names generalizing segs with
  | nil =>
    match segs, hlen with
    | [s], _ => simpa [interleaveNamed] using hsegs s (by simp)
  | cons n ns ih =>
    match segs, hlen with
    | s :: t :: rest, hlen =>
      intro hm
      have hm2 : '?' ∈ s ++ ':' :: (n.data ++ interleaveNamed (t :: rest) ns) := by
        simpa [interleaveNamed] using hm
      rcases List.mem_append.1 hm2 with h1 | h1
      · exact hsegs s (by simp) h1
      · rcases List.mem_cons.1 h1 with h2 | h2
        · exact absurd h2 (by decide)
        · rcases List.mem_append.1 h2 with h3 | h3
          · exact hnames n (by simp) h3
          · exact ih (t :: rest) (by simpa using hlen)
              (fun x hx => hsegs x (List.mem_cons_of_mem _ hx))
              (fun x hx => hnames x (List.mem_cons_of_mem _ hx)) h3

/-- C4: for a SQL template with N positional placeholders (given by its
N+1 placeholder-free segments) and N ordered parameter names, the rewrite
loop of init_prepared_statement produces the segments interleaved with the
named placeholders: each name occurs exactly once, at the position of the
corresponding positional placeholder, left to right, and no positional
placeholder remains. The rewrite is a pure Lean function of its inputs,
so it has no side effects. -/
theorem claim_C4_rewrite (segs : List (List Char)) (names : List String)
    (hlen : segs.length = names.length + 1)
    (hsegs : ∀ s ∈ segs, '?' ∉ s)
    (hnames : ∀ n ∈ names, '?' ∉ n.data) :
    rewriteTemplate names (templateOfSegs segs) = interleaveNamed segs names ∧
      '?' ∉ interleaveNamed segs names :=
  ⟨rewrite_eq_interleave names segs hlen hsegs hnames,
   interleave_no_q segs names hlen hsegs hnames⟩

/-- Witness for C4 at a concrete two-placeholder template. -/
theorem claim_C4_rewrite_w :
    (rewriteTemplate ["k1", "k2"]
        (templateOfSegs ["a=".data, " and b=".data, ([] : List Char)]) =
      interleaveNamed ["a=".data, " and b=".data, ([] : List Char)] ["k1", "k2"]) ∧
      interleaveNamed ["a=".data, " and b=".data, ([] : List Char)] ["k1", "k2"] =
        "a=:k1 and b=:k2".data :=
  ⟨(claim_C4_rewrite _ _ (by decide) (by decide) (by decide)).1, by decide⟩

/-! ### Claim C9: the transformation applier -/

theorem alookup_map_update {α : Type} (row : List (String × α)) (k key : String)
    (f : α → α) :
    alookup (row.map (fun p => if p.1 = k then (p.1, f p.2) else p)) key =
      if key = k then Option.map f (alookup row k) else alookup row key := by
  induction row with
  | nil => by_cases h : key = k <;> simp [alookup, h]
  | cons p rest ih =>
    obtain ⟨k0, v⟩ := p
    simp only [List.map_cons]
    by_cases h1 : k0 = k
    · rw [if_pos h1]
      by_cases h2 : k0 = key
      · subst h1; subst h2
        simp [alookup]
      · subst h1
        have hky : ¬ key = k0 := fun hh => h2 hh.symm
        simp [alookup, h2, hky, ih]
    · rw [if_neg h1]
      by_cases h2 : k0 = key
      · subst h2
        simp [alookup, h1]
      · by_cases h3 : key = k
        · subst h3
          simp [alookup, h1, h2, ih]
        · simp [alookup, h1, h2, h3, ih]

theorem alookup_none_of_any_false {α : Type} (row : List (String × α)) (k : String)
    (h : (row.any (fun p => p.1 = k)) = false) : alookup row k = none := by
  induction row with
  | nil => rfl
  | cons p rest ih =>
    simp only [List.any_cons, Bool.or_eq_false_iff] at h
    have h1 : ¬ p.1 = k := by simpa using h.1
    simp [alookup, h1, ih h.2]

theorem alookup_none_of_not_mem {α : Type} (l : List (String × α)) (k : String)
    (h : k ∉ l.map Prod.fst) : alookup l k = none := by
  induction l with
  | nil => rfl
  | cons p rest ih =>
    simp only [List.map_cons, List.mem_cons] at h
    push_neg at h
    have h1 : ¬ p.1 = k := fun hh => h.1 hh.symm
    simp [alookup, h1, ih h.2]

theorem map_update_keys {α : Type} (row : List (String × α)) (k : String) (f : α → α) :
    (row.map (fun p => if p.1 = k then (p.1, f p.2) else p)).map Prod.fst =
      row.map Prod.fst := by
  induction row with
  | nil => rfl
  | cons p rest ih => by_cases h : p.1 = k <;> simp [h, ih]

theorem apply_transformation_keys (fns : List (String × (Int → Int))) (row : Row) :
    (apply_transformation fns row).map Prod.fst = row.map Prod.fst := by
  induction fns generalizing row with
  | nil => rfl
  | cons p rest ih =>
    obtain ⟨name, fn⟩ := p
    show (apply_transformation rest _).map Prod.fst = _
    by_cases h : (row.any (fun p => p.1 = name)) = true
    · rw [if_pos h, ih, map_update_keys]
    · rw [if_neg h, ih]

theorem apply_transformation_lookup (fns : List (String × (Int → Int))) (row : Row)
    (hf : (fns.map Prod.fst).Nodup) (key : String) :
    alookup (apply_transformation fns row) key =
      match alookup fns key with
      | some f => Option.map f (alookup row key)
      | none => alookup row key := by
  induction fns generalizing row with
  | nil => simp [apply_transformation, alookup]
  | cons p rest ih =>
    obtain ⟨k, f⟩ := p
    simp only [List.map_cons, List.nodup_cons] at hf
    have hrest : alookup rest k = none := alookup_none_of_not_mem rest k hf.1
    show alookup (apply_transformation rest _) key = _
    rw [ih _ hf.2]
    by_cases hk : k = key
    · subst hk
      have hfk : alookup ((k, f) :: rest) k = some f := by simp [alookup]
      rw [hfk, hrest]
      by_cases hr : (row.any fun p => p.1 = k) = true
      · rw [if_pos hr, alookup_map_update row k k f, if_pos rfl]
      · have hr0 : (row.any fun p => p.1 = k) = false := Bool.eq_false_iff.mpr hr
        rw [if_neg hr, alookup_none_of_any_false row k hr0]
        rfl
    · have hfk : alookup ((k, f) :: rest) key = alookup rest key := by
        simp [alookup, hk]
      rw [hfk]
      have hrow : alookup (if (row.any fun p => p.1 = k) = true then
          row.map (fun p => if p.1 = k then (p.1, f p.2) else p) else row) key =
          alookup row key := by
        by_cases hr : (row.any fun p => p.1 = k) = true
        · rw [if_pos hr, alookup_map_update row k key f,
            if_neg (fun hh => hk hh.symm)]
        · rw [if_neg hr]
      rw [hrow]

/-- C9: for a mapping of feature names to transformation functions (with
the distinct keys of a Python dict) and a result row, the applier keeps
the field names of the row in order, replaces the value of each feature
present in both the mapping and the row with the transformed value, and
leaves every other field unchanged; mapping entries naming features
absent from the row have no effect (the lookup of such a feature is
`none` on both sides). -/
theorem claim_C9_transform (fns : List (String × (Int → Int))) (row : Row)
    (hf : (fns.map Prod.fst).Nodup) :
    (apply_transformation fns row).map Prod.fst = row.map Prod.fst ∧
      ∀ key, alookup (apply_transformation fns row) key =
        match alookup fns key with
        | some f => Option.map f (alookup row key)
        | none => alookup row key :=
  ⟨apply_transformation_keys fns row,
   fun key => apply_transformation_lookup fns row hf key⟩

/-- Witness for C9: one transformed feature, one untouched feature. -/
theorem claim_C9_transform_w :
    (apply_transformation [("a", fun v : Int => v + 1)] [("a", 5), ("b", 7)]).map
        Prod.fst = ["a", "b"] ∧
      alookup (apply_transformation [("a", fun v : Int => v + 1)]
        [("a", 5), ("b", 7)]) "b" = some 7 :=
  ⟨((claim_C9_transform [("a", fun v : Int => v + 1)] [("a", 5), ("b", 7)]
      (by simp)).1).trans rfl,
   ((claim_C9_transform [("a", fun v : Int => v + 1)] [("a", 5), ("b", 7)]
      (by simp)).2 "b").trans rfl⟩

/-! ### Characterisation of the statement loop -/

/-- The value of `result_dict` after the row loop: the last row, decoded
(trivially here, schemas empty) and transformed; the initial value if
there was no row. -/
def lastTransformed (tfns : List (String × (Int → Int))) (rows : List Row)
    (last0 : Row) : Row :=
  match rows with
  | [] => last0
  | r :: rs => apply_transformation tfns (rs.getLastD r)

/-- The effect of one statement's row loop on `batch_dicts`: rows are
written to consecutive slots starting at `k`. -/
def updFold (tfns : List (String × (Int → Int))) :
    List Row → List (Nat × List Int) → Nat → List (Nat × List Int)
  | [], bd, _ => bd
  | r :: rs, bd, k =>
    updFold tfns rs (updateBatchDict bd k ((apply_transformation tfns r).map Prod.snd)) (k + 1)

/-- The effect of the whole statement loop on `batch_dicts`. -/
def bdFold (tfns : List (String × (Int → Int))) (db : CompiledStmt → Entry → List Row)
    (entry : Entry) : List (Nat × CompiledStmt) → List (Nat × List Int) →
    List (Nat × List Int)
  | [], bd => bd
  | p :: ps, bd => bdFold tfns db entry ps (updFold tfns (db p.2 entry) bd 0)

theorem apply_transformation_nil (row : Row) : apply_transformation [] row = row := rfl

theorem processRows_ok (tfns : List (String × (Int → Int))) (batch : Bool)
    (rows : List Row) (bd : List (Nat × List Int)) (k : Nat) (last0 : Row)
    (hr : ∀ r ∈ rows, r ≠ []) :
    processRows [] tfns batch rows bd k last0 =
      .ok ((if batch then updFold tfns rows bd k else bd),
        lastTransformed tfns rows last0) := by
  induction rows generalizing bd k last0 with
  | nil => cases batch <;> simp [processRows, lastTransformed, updFold]
  | cons r rs ih =>
    have hr0 : r ≠ [] := hr r (List.mem_cons_self r rs)
    have hemc : r.isEmpty = false := by
      cases r with
      | nil => exact absurd rfl hr0
      | cons a l => rfl
    have hrs : ∀ x ∈ rs, x ≠ [] := fun x hx => hr x (List.mem_cons_of_mem _ hx)
    show (match deserialize_complex_features [] r with
      | Except.error e => Except.error e
      | Except.ok d =>
        if d.isEmpty then Except.error ServingError.noDataFound
        else
          let d2 := apply_transformation tfns d
          let bd2 := if batch then updateBatchDict bd k (d2.map Prod.snd) else bd
          processRows [] tfns batch rs bd2 (k + 1) d2) = _
    rw [show deserialize_complex_features [] r = Except.ok r from rfl]
    simp only [hemc, Bool.false_eq_true, if_false]
    rw [ih _ _ _ hrs]
    have hlast : lastTransformed tfns (r :: rs) last0 =
        lastTransformed tfns rs (apply_transformation tfns r) := by
      cases rs with
      | nil => rfl
      | cons b l =>
        show apply_transformation tfns ((b :: l).getLastD r) =
          apply_transformation tfns (l.getLastD b)
        rw [List.getLastD_cons]
    cases batch <;> simp [updFold, hlast]

theorem processStmts_ok (db : CompiledStmt → Entry → List Row)
    (tfns : List (String × (Int → Int))) (batch : Bool) (entry : Entry)
    (stmts : List (Nat × CompiledStmt)) (sv : List Int) (bd : List (Nat × List Int))
    (h : ∀ p ∈ stmts, ∀ r ∈ db p.2 entry, r ≠ []) :
    processStmts db [] tfns batch entry stmts sv bd =
      .ok ((if batch then sv else
          sv ++ (stmts.map
            (fun p => (lastTransformed tfns (db p.2 entry) []).map Prod.snd)).flatten),
        (if batch then bdFold tfns db entry stmts bd else bd)) := by
  induction stmts generalizing sv bd with
  | nil => cases batch <;> simp [processStmts, bdFold]
  | cons p ps ih =>
    obtain ⟨idx, stmt⟩ := p
    have hp : ∀ r ∈ db stmt entry, r ≠ [] := h (idx, stmt) (List.mem_cons_self _ _)
    have hps : ∀ q ∈ ps, ∀ r ∈ db q.2 entry, r ≠ [] :=
      fun q hq => h q (List.mem_cons_of_mem _ hq)
    show (match processRows [] tfns batch (db stmt entry) bd 0 [] with
      | Except.error e => Except.error e
      | Except.ok (bd2, lastDict) =>
        let sv2 := if batch then sv else sv ++ lastDict.map Prod.snd
        processStmts db [] tfns batch entry ps sv2 bd2) = _
    rw [processRows_ok tfns batch (db stmt entry) bd 0 [] hp]
    cases batch with
    | true => simp only [if_true]; rw [ih _ _ hps]; simp [bdFold]
    | false =>
      simp only [if_false]
      rw [ih _ _ hps]
      simp [List.flatten_cons, List.append_assoc]

theorem checkMode_single_ok (td : TrainingDataset) (entry : Entry) (k0 : String)
    (v0 : Int) (rest : Entry) (hb : td.serving_batch_size = none)
    (he : entry = (k0, EntryVal.scalar v0) :: rest) :
    checkMode td entry = .ok false := by
  subst he
  simp [checkMode, isBatchSize, hb, EntryVal.isSeq]

theorem checkKeys_ok (td : TrainingDataset) (entry : Entry) (sk : List String)
    (hk : td.serving_keys = some sk)
    (he : keySetEq (entry.map Prod.fst) sk = true) :
    checkKeys td entry = .ok () := by
  simp [checkKeys, hk, he]

/-- C1: in single mode, with the two prepared lookups cached at indices 0
and 1 (in ascending order, as iterated by the statement loop) whose
result rows carry the values [a, b] and [c, d], the returned vector is
exactly [a, b, c, d]: field order equals execution order, which is the
cache order (ascending index), independent of the field names and of the
other values that the backend could return for other statements. -/
theorem claim_C1_single_order
    (db : CompiledStmt → Entry → List Row) (td : TrainingDataset)
    (s0 s1 : CompiledStmt) (entry : Entry) (sk : List String)
    (k0 : String) (v0 : Int) (erest : Entry)
    (n1 n2 n3 n4 : String) (a b c d : Int)
    (h1 : td.prepared_statements = some [(0, s0), (1, s1)])
    (h2 : td.serving_batch_size = none)
    (h3 : td.serving_keys = some sk)
    (h4 : td.complex_schemas = [])
    (h5 : td.transformation_functions = [])
    (h6 : entry = (k0, EntryVal.scalar v0) :: erest)
    (h7 : keySetEq (entry.map Prod.fst) sk = true)
    (h8 : db s0 entry = [[(n1, a), (n2, b)]])
    (h9 : db s1 entry = [[(n3, c), (n4, d)]]) :
    get_serving_vector db td entry = .ok (.single [a, b, c, d]) := by
  have hne : ∀ p ∈ [((0 : Nat), s0), (1, s1)], ∀ r ∈ db p.2 entry, r ≠ [] := by
    intro p hp r hr
    rcases List.mem_cons.1 hp with h | h
    · subst h
      rw [h8] at hr
      rw [List.mem_singleton.1 hr]
      simp
    · rcases List.mem_cons.1 h with h' | h'
      · subst h'
        rw [h9] at hr
        rw [List.mem_singleton.1 hr]
        simp
      · simp at h'
  simp only [get_serving_vector, h1, checkMode_single_ok td entry k0 v0 erest h2 h6,
    checkKeys_ok td entry sk h3 h7, h4, h5]
  rw [processStmts_ok db [] false entry [(0, s0), (1, s1)] [] [] hne]
  simp [h8, h9, lastTransformed, apply_transformation_nil]

/-- Witness for C1 at fully concrete inputs. -/
theorem claim_C1_single_order_w :
    get_serving_vector
      (fun s _ => if s.text = "q0".data then [[("f1", 10), ("f2", 20)]]
        else [[("f3", 30), ("f4", 40)]])
      { prepared_statement_engine := some 0,
        prepared_statements := some
          [(0, ⟨"q0".data, false⟩), (1, ⟨"q1".data, false⟩)],
        serving_keys := some ["a"],
        serving_batch_size := none,
        transformation_functions := [],
        complex_schemas := [] }
      [("a", EntryVal.scalar 1)] = .ok (.single [10, 20, 30, 40]) :=
  claim_C1_single_order _ _ ⟨"q0".data, false⟩ ⟨"q1".data, false⟩ _ ["a"]
    "a" 1 [] "f1" "f2" "f3" "f4" 10 20 30 40
    rfl rfl rfl rfl rfl rfl (by decide) (by decide) (by decide)

/-- C10: in single mode, the segment a lookup contributes to the serving
vector consists exactly of the values of the final row of its result set
(decoded and transformed); the values of every earlier row are
overwritten in `result_dict` and do not appear in the returned vector. -/
theorem claim_C10_last_row
    (db : CompiledStmt → Entry → List Row) (td : TrainingDataset)
    (stmts : List (Nat × CompiledStmt)) (entry : Entry) (sk : List String)
    (tfns : List (String × (Int → Int)))
    (k0 : String) (v0 : Int) (erest : Entry)
    (h1 : td.prepared_statements = some stmts)
    (h2 : td.serving_batch_size = none)
    (h3 : td.serving_keys = some sk)
    (h4 : td.complex_schemas = [])
    (h5 : td.transformation_functions = tfns)
    (h6 : entry = (k0, EntryVal.scalar v0) :: erest)
    (h7 : keySetEq (entry.map Prod.fst) sk = true)
    (h8 : ∀ p ∈ stmts, db p.2 entry ≠ [] ∧ ∀ r ∈ db p.2 entry, r ≠ []) :
    get_serving_vector db td entry =
      .ok (.single ((stmts.map (fun p =>
        (apply_transformation tfns ((db p.2 entry).getLastD [])).map
          Prod.snd)).flatten)) := by
  simp only [get_serving_vector, h1, checkMode_single_ok td entry k0 v0 erest h2 h6,
    checkKeys_ok td entry sk h3 h7, h4, h5]
  rw [processStmts_ok db tfns false entry stmts [] [] (fun p hp => (h8 p hp).2)]
  have hmap : ∀ p ∈ stmts,
      (lastTransformed tfns (db p.2 entry) []).map Prod.snd =
        (apply_transformation tfns ((db p.2 entry).getLastD [])).map Prod.snd := by
    intro p hp
    rcases hrows : db p.2 entry with _ | ⟨r, rs⟩
    · exact absurd hrows (h8 p hp).1
    · show (apply_transformation tfns (rs.getLastD r)).map Prod.snd = _
      rw [List.getLastD_cons]
  rw [List.map_congr_left hmap]
  simp

/-- Witness for C10: a two-row result set in single mode contributes only
the final row's value. -/
theorem claim_C10_last_row_w :
    get_serving_vector (fun _ _ => [[("x", 1)], [("x", 2)]])
      { prepared_statement_engine := some 0,
        prepared_statements := some [(0, ⟨"q0".data, false⟩)],
        serving_keys := some ["a"],
        serving_batch_size := none,
        transformation_functions := [],
        complex_schemas := [] }
      [("a", EntryVal.scalar 1)] = .ok (.single [2]) :=
  claim_C10_last_row _ _ [(0, ⟨"q0".data, false⟩)] _ ["a"] [] "a" 1 []
    rfl rfl rfl rfl rfl rfl (by decide) (by decide)

/-! ### Batch mode: claim C2 -/

/-- Batch accumulator with consecutive slot keys starting at `k`. -/
def enumFrom : Nat → List (List Int) → List (Nat × List Int)
  | _, [] => []
  | k, f :: fs => (k, f) :: enumFrom (k + 1) fs

/-- The expected batch result: vector i is the concatenation, across the
row lists in order, of the values of each row list's row at position i. -/
def stitch (R : List (List Row)) (n : Nat) : List (List Int) :=
  (List.range n).map (fun i => (R.map (fun rows => (rows.getD i []).map Prod.snd)).flatten)

/-- A sequence value of the configured batch length. -/
def isSeqLen (n : Nat) : EntryVal → Bool
  | .scalar _ => false
  | .seq l => decide (l.length = n)

theorem updateBatchDict_cons (p : Nat × List Int) (bd : List (Nat × List Int))
    (j : Nat) (vs : List Int) (hne : ¬ p.1 = j) :
    updateBatchDict (p :: bd) j vs = p :: updateBatchDict bd j vs := by
  by_cases h : (bd.any (fun q => q.1 = j)) = true <;>
    simp [updateBatchDict, h, hne]

theorem updFold_cons (tfns : List (String × (Int → Int))) (rows : List Row)
    (p : Nat × List Int) (bd : List (Nat × List Int)) (k : Nat) (hp : p.1 < k) :
    updFold tfns rows (p :: bd) k = p :: updFold tfns rows bd k := by
  induction rows generalizing bd k with
  | nil => rfl
  | cons r rs ih =>
    show updFold tfns rs (updateBatchDict (p :: bd) k _) (k + 1) = _
    rw [updateBatchDict_cons p bd k _ (Nat.ne_of_lt hp)]
    rw [ih _ _ (Nat.lt_succ_of_lt hp)]
    rfl

theorem updFold_nil_bd (tfns : List (String × (Int → Int))) (rows : List Row) (k : Nat) :
    updFold tfns rows [] k =
      enumFrom k (rows.map (fun r => (apply_transformation tfns r).map Prod.snd)) := by
  induction rows generalizing k with
  | nil => rfl
  | cons r rs ih =>
    show updFold tfns rs (updateBatchDict [] k _) (k + 1) = _
    rw [show updateBatchDict [] k ((apply_transformation tfns r).map Prod.snd) =
      [(k, (apply_transformation tfns r).map Prod.snd)] from rfl]
    rw [updFold_cons tfns rs _ [] (k + 1) (Nat.lt_succ_self k), ih]
    rfl

theorem enumFrom_map_unchanged (fs : List (List Int)) (m j : Nat) (vs : List Int)
    (h : j < m) :
    (enumFrom m fs).map (fun q => if q.1 = j then (q.1, q.2 ++ vs) else q) =
      enumFrom m fs := by
  induction fs generalizing m with
  | nil => rfl
  | cons f fs ih =>
    show (if m = j then (m, f ++ vs) else (m, f)) :: _ = _
    rw [if_neg (Nat.ne_of_gt h), ih (m + 1) (Nat.lt_succ_of_lt h)]
    rfl

theorem updFold_enumFrom (tfns : List (String × (Int → Int))) (fs : List (List Int))
    (rows : List Row) (k : Nat) (hl : rows.length = fs.length) :
    updFold tfns rows (enumFrom k fs) k =
      enumFrom k (List.zipWith
        (fun f r => f ++ (apply_transformation tfns r).map Prod.snd) fs rows) := by
  induction fs generalizing rows k with
  | nil =>
    cases rows with
    | nil => rfl
    | cons r rs => exact absurd hl (by simp)
  | cons f fs ih =>
    cases rows with
    | nil => exact absurd hl (by simp)
    | cons r rs =>
      show updFold tfns rs (updateBatchDict ((k, f) :: enumFrom (k + 1) fs) k _) (k + 1) = _
      have hany : (((k, f) :: enumFrom (k + 1) fs).any (fun q => q.1 = k)) = true := by
        simp
      rw [show updateBatchDict ((k, f) :: enumFrom (k + 1) fs) k
          ((apply_transformation tfns r).map Prod.snd) =
          (k, f ++ (apply_transformation tfns r).map Prod.snd) ::
            (enumFrom (k + 1) fs).map
              (fun q => if q.1 = k then (q.1, q.2 ++ (apply_transformation tfns r).map Prod.snd) else q)
          from by simp [updateBatchDict, hany]]
      rw [enumFrom_map_unchanged fs (k + 1) k _ (Nat.lt_succ_self k)]
      rw [updFold_cons tfns rs _ _ (k + 1) (Nat.lt_succ_self k)]
      rw [ih rs (k + 1) (by simpa using hl)]
      rfl

theorem enumFrom_map_snd (k : Nat) (fs : List (List Int)) :
    (enumFrom k fs).map Prod.snd = fs := by
  induction fs generalizing k with
  | nil => rfl
  | cons f fs ih =>
    show f :: (enumFrom (k + 1) fs).map Prod.snd = f :: fs
    rw [ih]

theorem stitch_length (R : List (List Row)) (n : Nat) : (stitch R n).length = n := by
  simp [stitch]

theorem stitch_single (rows : List Row) (n : Nat) (h : rows.length = n) :
    stitch [rows] n = rows.map (fun r => r.map Prod.snd) := by
  apply List.ext_getElem
  · simp [stitch, h]
  · intro i h1 h2
    simp only [stitch, List.getElem_map, List.getElem_range, List.map_cons,
      List.map_nil, List.flatten_cons, List.flatten_nil, List.append_nil]
    have hi : i < rows.length := by
      rw [h]
      simpa [stitch] using h1
    rw [List.getD_eq_getElem _ _ hi]

theorem stitch_step (R : List (List Row)) (rows : List Row) (n : Nat)
    (h : rows.length = n) :
    List.zipWith (fun f r => f ++ r.map Prod.snd) (stitch R n) rows =
      stitch (R ++ [rows]) n := by
  apply List.ext_getElem
  · simp [stitch, h]
  · intro i h1 h2
    have hi : i < n := by simpa [stitch] using h2
    rw [List.getElem_zipWith]
    simp only [stitch, List.getElem_map, List.getElem_range, List.map_append,
      List.map_cons, List.map_nil, List.flatten_append, List.flatten_cons,
      List.flatten_nil, List.append_nil]
    rw [List.getD_eq_getElem _ _ (by rw [h]; exact hi)]

theorem bdFold_stitch (db : CompiledStmt → Entry → List Row) (entry : Entry)
    (stmts : List (Nat × CompiledStmt)) (R0 : List (List Row)) (n : Nat)
    (hall : ∀ p ∈ stmts, (db p.2 entry).length = n) :
    bdFold [] db entry stmts (enumFrom 0 (stitch R0 n)) =
      enumFrom 0 (stitch (R0 ++ stmts.map (fun p => db p.2 entry)) n) := by
  induction stmts generalizing R0 with
  | nil => simp [bdFold]
  | cons p ps ih =>
    show bdFold [] db entry ps (updFold [] (db p.2 entry) (enumFrom 0 (stitch R0 n)) 0) = _
    rw [updFold_enumFrom [] (stitch R0 n) (db p.2 entry) 0
      (by rw [hall p (List.mem_cons_self _ _), stitch_length])]
    have hz : List.zipWith
        (fun f r => f ++ (apply_transformation [] r).map Prod.snd)
        (stitch R0 n) (db p.2 entry) = stitch (R0 ++ [db p.2 entry]) n := by
      rw [show (fun (f : List Int) (r : Row) =>
          f ++ (apply_transformation [] r).map Prod.snd) =
          (fun (f : List Int) (r : Row) => f ++ r.map Prod.snd) from rfl]
      exact stitch_step R0 (db p.2 entry) n (hall p (List.mem_cons_self _ _))
    rw [hz, ih (R0 ++ [db p.2 entry])
      (fun q hq => hall q (List.mem_cons_of_mem _ hq))]
    simp

theorem seqLens_all (n : Nat) (entry : Entry)
    (h : entry.all (fun kv => isSeqLen n kv.2) = true) :
    seqLens entry = .ok (entry.map (fun _ => n)) := by
  induction entry with
  | nil => rfl
  | cons kv rest ih =>
    obtain ⟨k, v⟩ := kv
    simp only [List.all_cons, Bool.and_eq_true] at h
    cases v with
    | scalar x => exact absurd h.1 (by simp [isSeqLen])
    | seq l =>
      have hl : l.length = n := by simpa [isSeqLen] using h.1
      show (match seqLens rest with
        | Except.error e => Except.error e
        | Except.ok ls => Except.ok (l.length :: ls)) = _
      rw [ih h.2, hl]
      rfl

theorem dedup_const (l : List Nat) (n : Nat) (h : ∀ x ∈ l, x = n) (hne : l ≠ []) :
    l.dedup = [n] := by
  induction l with
  | nil => exact absurd rfl hne
  | cons x xs ih =>
    have hx : x = n := h x (List.mem_cons_self _ _)
    subst hx
    cases xs with
    | nil => simp
    | cons y ys =>
      have hy : y = x := (h y (by simp)).trans ((h x (by simp)).symm)
      have hmem : x ∈ y :: ys := by
        rw [hy]
        exact List.mem_cons_self _ _
      rw [List.dedup_cons_of_mem hmem]
      exact ih (fun z hz => h z (List.mem_cons_of_mem _ hz)) (by simp)

theorem checkMode_batch_ok (td : TrainingDataset) (entry : Entry) (n : Nat)
    (hb : td.serving_batch_size = some n) (hn : 1 < n) (hne : entry ≠ [])
    (hall : entry.all (fun kv => isSeqLen n kv.2) = true) :
    checkMode td entry = .ok true := by
  have hbs : isBatchSize td.serving_batch_size = true := by
    simp [isBatchSize, hb, hn]
  cases entry with
  | nil => exact absurd rfl hne
  | cons kv rest =>
    obtain ⟨k, v⟩ := kv
    have hv : isSeqLen n v = true := by
      have := hall
      simp only [List.all_cons, Bool.and_eq_true] at this
      exact this.1
    cases v with
    | scalar x => exact absurd hv (by simp [isSeqLen])
    | seq l =>
      have hlens : seqLens ((k, EntryVal.seq l) :: rest) =
          .ok (((k, EntryVal.seq l) :: rest).map (fun _ => n)) :=
        seqLens_all n _ hall
      have hdedup : ∀ m : Nat, (n :: List.replicate m n).dedup = [n] := by
        intro m
        apply dedup_const
        · intro x hx
          rcases List.mem_cons.1 hx with h | h
          · exact h
          · exact List.eq_of_mem_replicate h
        · simp
      simp [checkMode, hbs, EntryVal.isScalar, hlens, hdedup]

/-- C2: in batch mode with configured batch size n, when every cached
lookup (iterated in cache order, which is ascending index order by the
`hsorted` hypothesis) returns exactly n nonempty rows, the call returns
exactly n vectors ordered by ascending batch-slot index, and vector i is
the concatenation, across the lookups in that order, of the values of
each lookup's row at return position i. -/
theorem claim_C2_batch_stitch
    (db : CompiledStmt → Entry → List Row) (td : TrainingDataset)
    (entry : Entry) (sk : List String) (n : Nat)
    (c : Nat × CompiledStmt) (cs : List (Nat × CompiledStmt))
    (h1 : td.prepared_statements = some (c :: cs))
    (h2 : td.serving_batch_size = some n)
    (h3 : 1 < n)
    (h4 : td.complex_schemas = [])
    (h5 : td.transformation_functions = [])
    (h6 : td.serving_keys = some sk)
    (h7 : keySetEq (entry.map Prod.fst) sk = true)
    (h8 : entry ≠ [])
    (h9 : entry.all (fun kv => isSeqLen n kv.2) = true)
    (h10 : ∀ p ∈ c :: cs, (db p.2 entry).length = n)
    (h11 : ∀ p ∈ c :: cs, ∀ r ∈ db p.2 entry, r ≠ [])
    (_hsorted : List.Pairwise (fun p q => p < q) ((c :: cs).map Prod.fst)) :
    get_serving_vector db td entry =
      .ok (.batch (stitch ((c :: cs).map (fun p => db p.2 entry)) n)) ∧
      (stitch ((c :: cs).map (fun p => db p.2 entry)) n).length = n := by
  refine ⟨?_, stitch_length _ n⟩
  simp only [get_serving_vector, h1, checkMode_batch_ok td entry n h2 h3 h8 h9,
    checkKeys_ok td entry sk h6 h7, h4, h5]
  rw [processStmts_ok db [] true entry (c :: cs) [] [] h11]
  have hbd : bdFold [] db entry (c :: cs) [] =
      enumFrom 0 (stitch ((c :: cs).map (fun p => db p.2 entry)) n) := by
    show bdFold [] db entry cs (updFold [] (db c.2 entry) [] 0) = _
    rw [updFold_nil_bd [] (db c.2 entry) 0]
    have hc : (db c.2 entry).map
        (fun r => (apply_transformation [] r).map Prod.snd) =
        stitch [db c.2 entry] n := by
      rw [show (fun (r : Row) => (apply_transformation [] r).map Prod.snd) =
        (fun (r : Row) => r.map Prod.snd) from rfl]
      exact (stitch_single (db c.2 entry) n (h10 c (List.mem_cons_self _ _))).symm
    rw [hc, bdFold_stitch db entry cs [db c.2 entry] n
      (fun q hq => h10 q (List.mem_cons_of_mem _ hq))]
    simp
  rw [hbd]
  simp [enumFrom_map_snd]

/-- Witness for C2: batch size 2, two lookups, two rows each. -/
theorem claim_C2_batch_stitch_w :
    get_serving_vector
      (fun s _ => if s.text = "q0".data then [[("x", 10)], [("y", 20)]]
        else [[("u", 30)], [("v", 40)]])
      { prepared_statement_engine := some 0,
        prepared_statements := some
          [(0, ⟨"q0".data, false⟩), (1, ⟨"q1".data, false⟩)],
        serving_keys := some ["a"],
        serving_batch_size := some 2,
        transformation_functions := [],
        complex_schemas := [] }
      [("a", EntryVal.seq [1, 2])] = .ok (.batch [[10, 30], [20, 40]]) :=
  (claim_C2_batch_stitch _ _ [("a", EntryVal.seq [1, 2])] ["a"] 2
    (0, ⟨"q0".data, false⟩) [(1, ⟨"q1".data, false⟩)]
    rfl rfl (by decide) rfl rfl rfl (by decide) (by decide) (by decide)
    (by decide) (by decide) (by decide)).1.trans rfl

/-! ### Error-handling claims -/

/-- C3 is a code bug: in single mode, a lookup whose result set is empty
does not raise. `result_dict` keeps its initial empty value, the guard
`if not result_dict` sits inside the row loop and is never reached when
`fetchall` returns zero rows, and the engine silently returns a short
vector built from the remaining lookups only. Here the first of two
lookups returns zero rows and the call returns the two-field vector of
the second lookup instead of raising `NoDataFound`. -/
theorem claim_C3_empty_result_bug :
    get_serving_vector
      (fun s _ => if s.text = "q0".data then [] else [[("c", 3), ("d", 4)]])
      { prepared_statement_engine := some 0,
        prepared_statements := some
          [(0, ⟨"q0".data, false⟩), (1, ⟨"q1".data, false⟩)],
        serving_keys := some ["a"],
        serving_batch_size := none,
        transformation_functions := [],
        complex_schemas := [] }
      [("a", EntryVal.scalar 1)] = .ok (.single [3, 4]) := rfl

/-- C5 is a code bug: with configured batch size 3 and an entry whose two
sequences both have length 2, the size check does not fire. The source
condition is `len(batch_sizes) != 1 and batch_sizes != serving_batch_size`:
the uniform length makes the first conjunct false, and the second
conjunct compares a list with an int, so the configured-size comparison
can never act alone. The queries execute and two vectors are returned
where the claim requires `ServingModeMismatch` and no query execution. -/
theorem claim_C5_size_check_bug :
    get_serving_vector (fun _ _ => [[("x", 10)], [("y", 20)]])
      { prepared_statement_engine := some 0,
        prepared_statements := some [(0, ⟨"q0".data, false⟩)],
        serving_keys := some ["a", "b"],
        serving_batch_size := some 3,
        transformation_functions := [],
        complex_schemas := [] }
      [("a", EntryVal.seq [1, 2]), ("b", EntryVal.seq [8, 9])] =
      .ok (.batch [[10], [20]]) := rfl

/-- Counterexample to C6 as stated: in single mode, an entry whose second
value is a sequence is not rejected; only the first value is inspected by
the mode check, so the call executes and returns a vector instead of
raising `ServingModeMismatch`. -/
theorem claim_C6_cex :
    get_serving_vector (fun _ _ => [[("x", 7)]])
      { prepared_statement_engine := some 0,
        prepared_statements := some [(0, ⟨"q0".data, false⟩)],
        serving_keys := some ["a", "b"],
        serving_batch_size := none,
        transformation_functions := [],
        complex_schemas := [] }
      [("a", EntryVal.scalar 1), ("b", EntryVal.seq [2, 3])] =
      .ok (.single [7]) := rfl

/-- C6 amended: the mode check inspects only the first value of the
entry (dict insertion order). In single mode the call raises
`ServingModeMismatch` whenever the first value is a sequence, and in
batch mode whenever the first value is a scalar, in both cases
immediately: the result is the error for every backend `db`, so no query
is executed. -/
theorem claim_C6_amended :
    (∀ (db : CompiledStmt → Entry → List Row) (td : TrainingDataset)
      (entry : Entry) (k : String) (l : List Int) (rest : Entry)
      (ps : List (Nat × CompiledStmt)),
      td.prepared_statements = some ps →
      td.serving_batch_size = none →
      entry = (k, EntryVal.seq l) :: rest →
      get_serving_vector db td entry = .error .modeMismatchSingleExpected) ∧
    (∀ (db : CompiledStmt → Entry → List Row) (td : TrainingDataset)
      (entry : Entry) (k : String) (v : Int) (rest : Entry)
      (ps : List (Nat × CompiledStmt)) (n : Nat),
      td.prepared_statements = some ps →
      td.serving_batch_size = some n →
      1 < n →
      entry = (k, EntryVal.scalar v) :: rest →
      get_serving_vector db td entry = .error .modeMismatchBatchExpected) := by
  constructor
  · intro db td entry k l rest ps h1 h2 h3
    subst h3
    simp [get_serving_vector, h1, checkMode, isBatchSize, h2, EntryVal.isSeq]
  · intro db td entry k v rest ps n h1 h2 hn h3
    subst h3
    have hbs : isBatchSize td.serving_batch_size = true := by
      simp [isBatchSize, h2, hn]
    simp [get_serving_vector, h1, checkMode, hbs, EntryVal.isScalar]

/-- Witness for C6 amended, both directions at concrete inputs. -/
theorem claim_C6_amended_w :
    get_serving_vector (fun _ _ => [])
      { prepared_statement_engine := some 0,
        prepared_statements := some [(0, ⟨"q0".data, false⟩)],
        serving_keys := some ["a"],
        serving_batch_size := none,
        transformation_functions := [],
        complex_schemas := [] }
      [("a", EntryVal.seq [1])] = .error .modeMismatchSingleExpected ∧
    get_serving_vector (fun _ _ => [])
      { prepared_statement_engine := some 0,
        prepared_statements := some [(0, ⟨"q0".data, false⟩)],
        serving_keys := some ["a"],
        serving_batch_size := some 2,
        transformation_functions := [],
        complex_schemas := [] }
      [("a", EntryVal.scalar 1)] = .error .modeMismatchBatchExpected :=
  ⟨claim_C6_amended.1 _ _ _ "a" [1] [] [(0, ⟨"q0".data, false⟩)] rfl rfl rfl,
   claim_C6_amended.2 _ _ _ "a" 1 [] [(0, ⟨"q0".data, false⟩)] 2 rfl rfl
     (by decide) rfl⟩

/-- Counterexample to C7 as stated: the empty entry has a key set
different from the cached serving keys (a strict subset), yet the call
does not raise `KeyMismatch`: both mode branches first read
`list(entry.values())[0]`, which raises an IndexError on an empty dict
before the key check is reached. -/
theorem claim_C7_cex :
    keySetEq (([] : Entry).map Prod.fst) ["a"] = false ∧
    get_serving_vector (fun _ _ => [])
      { prepared_statement_engine := some 0,
        prepared_statements := some [(0, ⟨"q0".data, false⟩)],
        serving_keys := some ["a"],
        serving_batch_size := none,
        transformation_functions := [],
        complex_schemas := [] }
      ([] : Entry) = .error .emptyEntry ∧
    ServingError.emptyEntry ≠ ServingError.keyMismatch :=
  ⟨rfl, rfl, by decide⟩

/-- C7 amended: for a nonempty entry that passes the mode-shape check
(single mode: first value scalar; batch mode: all values sequences of
one common length), a key set different from the cached ServingKeys set
raises `KeyMismatch`, and the result is that error for every backend
`db`, so it is surfaced before any query executes. -/
theorem claim_C7_amended :
    (∀ (db : CompiledStmt → Entry → List Row) (td : TrainingDataset)
      (entry : Entry) (sk : List String) (k : String) (v : Int) (rest : Entry)
      (ps : List (Nat × CompiledStmt)),
      td.prepared_statements = some ps →
      td.serving_batch_size = none →
      td.serving_keys = some sk →
      entry = (k, EntryVal.scalar v) :: rest →
      keySetEq (entry.map Prod.fst) sk = false →
      get_serving_vector db td entry = .error .keyMismatch) ∧
    (∀ (db : CompiledStmt → Entry → List Row) (td : TrainingDataset)
      (entry : Entry) (sk : List String) (ps : List (Nat × CompiledStmt)) (n : Nat),
      td.prepared_statements = some ps →
      td.serving_batch_size = some n →
      1 < n →
      td.serving_keys = some sk →
      entry ≠ [] →
      entry.all (fun kv => isSeqLen n kv.2) = true →
      keySetEq (entry.map Prod.fst) sk = false →
      get_serving_vector db td entry = .error .keyMismatch) := by
  constructor
  · intro db td entry sk k v rest ps h1 h2 h3 h4 h5
    simp [get_serving_vector, h1, checkMode_single_ok td entry k v rest h2 h4,
      checkKeys, h3, h5]
  · intro db td entry sk ps n h1 h2 hn h3 h4 h5 h6
    simp [get_serving_vector, h1, checkMode_batch_ok td entry n h2 hn h4 h5,
      checkKeys, h3, h6]

/-- Witness for C7 amended, both modes at concrete inputs. -/
theorem claim_C7_amended_w :
    get_serving_vector (fun _ _ => [])
      { prepared_statement_engine := some 0,
        prepared_statements := some [(0, ⟨"q0".data, false⟩)],
        serving_keys := some ["a", "b"],
        serving_batch_size := none,
        transformation_functions := [],
        complex_schemas := [] }
      [("a", EntryVal.scalar 1)] = .error .keyMismatch ∧
    get_serving_vector (fun _ _ => [])
      { prepared_statement_engine := some 0,
        prepared_statements := some [(0, ⟨"q0".data, false⟩)],
        serving_keys := some ["a"],
        serving_batch_size := some 2,
        transformation_functions := [],
        complex_schemas := [] }
      [("z", EntryVal.seq [1, 2])] = .error .keyMismatch :=
  ⟨claim_C7_amended.1 _ _ _ ["a", "b"] "a" 1 [] [(0, ⟨"q0".data, false⟩)]
     rfl rfl rfl rfl (by decide),
   claim_C7_amended.2 _ _ _ ["a"] [(0, ⟨"q0".data, false⟩)] 2
     rfl rfl (by decide) rfl (by decide) (by decide) (by decide)⟩

/-! ### Claim C8: re-initialisation leaves no residue -/

/-- C8: `init_prepared_statement` starts by unconditionally resetting the
statement cache, connection engine, serving keys and batch size (the
embedding factors this as `resetServingState`), and then rebuilds them
from its arguments only. Consequently the serving-relevant state observed
after an init call is independent of whatever state the training dataset
object carried before — in particular, two init calls with the same
parameters starting from two arbitrary prior states (such as the states
left by earlier inits with other batch sizes) produce identical
prepared-statement caches, engines, serving keys, batch sizes and
transformation functions: no residue of the earlier mode survives. -/
theorem claim_C8_reinit (td td' : TrainingDataset) (batch_size : Option Nat)
    (mysqlEngine : Nat) (api : Bool → List PreparedStmtMeta)
    (tfns : List (String × (Int → Int))) :
    (init_prepared_statement td batch_size mysqlEngine api tfns).prepared_statements =
      (init_prepared_statement td' batch_size mysqlEngine api tfns).prepared_statements ∧
    (init_prepared_statement td batch_size mysqlEngine api tfns).prepared_statement_engine =
      (init_prepared_statement td' batch_size mysqlEngine api tfns).prepared_statement_engine ∧
    (init_prepared_statement td batch_size mysqlEngine api tfns).serving_keys =
      (init_prepared_statement td' batch_size mysqlEngine api tfns).serving_keys ∧
    (init_prepared_statement td batch_size mysqlEngine api tfns).serving_batch_size =
      (init_prepared_statement td' batch_size mysqlEngine api tfns).serving_batch_size ∧
    (init_prepared_statement td batch_size mysqlEngine api tfns).transformation_functions =
      (init_prepared_statement td' batch_size mysqlEngine api tfns).transformation_functions := by
  cases hb : isBatchSize batch_size <;>
    simp [init_prepared_statement, resetServingState, hb]
